import Mathlib

namespace Tagger

/-! Shallow embedding of the tagger repository: the enricher orchestrator
(pkg/enricher/enricher.go), the MusicBrainz adapter
(pkg/enricher/musicbrainz/musicbrainz.go) and the filename decomposition
heuristics (cmd/batch.go).  Go float64 values are modelled as exact
rationals; every confidence constant is a multiple of 1/10, and on those
values rational and IEEE-754 double evaluation agree on every comparison
and clamp the code performs.  Go errors are modelled as an inductive type
in which fmt.Errorf with a %w verb becomes the `wrapped` constructor. -/

/-- Go error values used by the enricher and the adapter.  The sentinel
errors of pkg/enricher/enricher.go are constructors; an error built with
fmt.Errorf("msg: %w", err) is `wrapped "msg" err`; the non-200 response
error "musicbrainz API returned status %d" is `apiStatus`. -/
inductive GoErr where
  | notFound
  | rateLimited
  | apiErr
  | noProvider
  | ctxCanceled
  | ctxDeadlineExceeded
  | apiStatus (code : Nat)
  | wrapped (msg : String) (cause : GoErr)
  | other (msg : String)
  deriving DecidableEq, Repr

/-- Model of Go errors.Is: whether target appears in the unwrap chain of e
(fmt.Errorf with %w makes the cause reachable by unwrapping). -/
def errorsIs (e target : GoErr) : Bool :=
  if e = target then true
  else
    match e with
    | .wrapped _ cause => errorsIs cause target
    | _ => false

/-- TrackMetadata of pkg/enricher/enricher.go.  The open string-keyed
Extra bag is omitted: no claim observes it, and the orchestrator never
reads it. -/
structure TrackMetadata where
  artist : String
  title : String
  album : String
  label : String
  releaseDate : String
  genre : String
  catalogNumber : String
  year : Int
  providerID : String
  providerName : String
  confidence : ℚ
  deriving DecidableEq, Repr

/-- SearchRequest of pkg/enricher/enricher.go; duration is the Go
time.Duration in nanoseconds. -/
structure SearchRequest where
  artist : String
  title : String
  album : String
  genre : String
  year : String
  duration : Int
  preferOriginalRelease : Bool
  maxResults : Int
  deriving DecidableEq, Repr

/-- ProviderStrategy is a Go string type; these are its declared values. -/
def StrategyFirst : String := "first"

def StrategyBest : String := "best"

def StrategyFallback : String := "fallback"

/-- EnricherConfig of pkg/enricher/enricher.go.  requestTimeout and
cacheTTL are Go durations in nanoseconds; the strategy is the raw string
of the ProviderStrategy type. -/
structure EnricherConfig where
  strategy : String
  minConfidence : ℚ
  requireLabel : Bool
  requestTimeout : Int
  cacheEnabled : Bool
  cacheTTL : Int
  deriving DecidableEq, Repr

/-- A provider, seen through the one method the orchestrator calls on it:
LookupWithHints.  The Go call returns a pair of a nullable pointer and a
nullable error; a call is modelled by its outcome on the given request,
with the context effect folded into that outcome. -/
abbrev MetadataProvider := SearchRequest → Except GoErr (Option TrackMetadata)

/-- The Enricher struct: an ordered provider list plus a configuration. -/
structure Enricher where
  providers : List MetadataProvider
  config : EnricherConfig

/-- CalculateConfidence of pkg/enricher/enricher.go, float64 arithmetic
modelled over ℚ. -/
def CalculateConfidence (metadata : TrackMetadata) (exactMatch : Bool) : ℚ :=
  let confidence : ℚ := 0 + 2/10
  let confidence := confidence + (if exactMatch then 4/10 else 2/10)
  let confidence := if metadata.label ≠ "" then confidence + 2/10 else confidence
  let confidence :=
    if metadata.releaseDate ≠ "" ∨ metadata.year > 0 then confidence + 1/10 else confidence
  let confidence := if metadata.catalogNumber ≠ "" then confidence + 1/10 else confidence
  if confidence > 1 then 1 else confidence

/-- Loop of Enricher.lookupFirst over the provider outcomes, threading the
lastErr accumulator exactly as the Go for-loop does. -/
def lookupFirstLoop (cfg : EnricherConfig) :
    List (Except GoErr (Option TrackMetadata)) → Option GoErr → Except GoErr TrackMetadata
  | [], some e => .error e
  | [], none => .error .notFound
  | .error e :: rest, _ => lookupFirstLoop cfg rest (some e)
  | .ok none :: rest, lastErr => lookupFirstLoop cfg rest lastErr
  | .ok (some result) :: rest, lastErr =>
    if result.confidence ≥ cfg.minConfidence ∧ (cfg.requireLabel = false ∨ result.label ≠ "") then
      .ok result
    else lookupFirstLoop cfg rest lastErr

/-- Enricher.lookupFirst: try providers in order, return the first
qualifying result. -/
def Enricher.lookupFirst (e : Enricher) (req : SearchRequest) : Except GoErr TrackMetadata :=
  lookupFirstLoop e.config (e.providers.map (fun p => p req)) none

/-- Loop of Enricher.lookupBest over the provider outcomes, threading the
bestResult and lastErr accumulators exactly as the Go for-loop does. -/
def lookupBestLoop (cfg : EnricherConfig) :
    List (Except GoErr (Option TrackMetadata)) → Option TrackMetadata → Option GoErr →
      Except GoErr TrackMetadata
  | [], some best, _ => .ok best
  | [], none, some e => .error e
  | [], none, none => .error .notFound
  | .error e :: rest, best, _ => lookupBestLoop cfg rest best (some e)
  | .ok none :: rest, best, lastErr => lookupBestLoop cfg rest best lastErr
  | .ok (some result) :: rest, best, lastErr =>
    if result.confidence ≥ cfg.minConfidence ∧ (cfg.requireLabel = false ∨ result.label ≠ "") then
      match best with
      | none => lookupBestLoop cfg rest (some result) lastErr
      | some b =>
        if result.confidence > b.confidence then lookupBestLoop cfg rest (some result) lastErr
        else lookupBestLoop cfg rest (some b) lastErr
    else lookupBestLoop cfg rest best lastErr

/-- Enricher.lookupBest: try all providers, keep the maximum-confidence
qualifying result. -/
def Enricher.lookupBest (e : Enricher) (req : SearchRequest) : Except GoErr TrackMetadata :=
  lookupBestLoop e.config (e.providers.map (fun p => p req)) none none

/-- Reduced request built by Enricher.lookupFallback for its second pass:
Artist, Title, PreferOriginalRelease and MaxResults are copied from the
original, every omitted field keeps its Go zero value. -/
def simplifiedRequest (req : SearchRequest) : SearchRequest :=
  { artist := req.artist
    title := req.title
    album := ""
    genre := ""
    year := ""
    duration := 0
    preferOriginalRelease := req.preferOriginalRelease
    maxResults := req.maxResults }

/-- Enricher.lookupFallback: a First pass with the full request; when it
fails, a First pass with the simplified request. -/
def Enricher.lookupFallback (e : Enricher) (req : SearchRequest) : Except GoErr TrackMetadata :=
  match e.lookupFirst req with
  | .ok result => .ok result
  | .error _ => e.lookupFirst ( simplifiedRequest req)

/-- Enricher.LookupWithRequest: applies the configured request timeout to
the context (a real-time effect folded into each provider outcome) and
dispatches on the strategy string; any unknown strategy falls through to
lookupFirst. -/
def Enricher.LookupWithRequest (e : Enricher) (req : SearchRequest) : Except GoErr TrackMetadata :=
  if e.config.strategy = StrategyFirst then e.lookupFirst req
  else if e.config.strategy = StrategyBest then e.lookupBest req
  else if e.config.strategy = StrategyFallback then e.lookupFallback req
  else e.lookupFirst req

/-- Enricher.Lookup: rejects an empty registry, then delegates to
LookupWithRequest with the default request. -/
def Enricher.Lookup (e : Enricher) (artist title : String) : Except GoErr TrackMetadata :=
  if e.providers.length = 0 then .error .noProvider
  else
    e.LookupWithRequest
      { artist := artist, title := title, album := "", genre := "", year := "",
        duration := 0, preferOriginalRelease := true, maxResults := 5 }

/-- Spec predicate for the First strategy: a provider call qualifies when
it succeeded with a non-nil result whose confidence reaches minConfidence
and, when requireLabel is set, whose label is non-empty. -/
def qualifies (cfg : EnricherConfig) : Except GoErr (Option TrackMetadata) → Bool
  | .ok (some r) =>
    decide (r.confidence ≥ cfg.minConfidence) && (!cfg.requireLabel || decide (r.label ≠ ""))
  | _ => false

/-- Spec function: the last error among a list of provider call outcomes. -/
def lastErrOf : List (Except GoErr (Option TrackMetadata)) → Option GoErr
  | [] => none
  | o :: rest =>
    match lastErrOf rest with
    | some e => some e
    | none => match o with | .error e => some e | _ => none

/-- Spec description of the First strategy, written from the spec text:
the earliest qualifying outcome in registration order wins; erroring
providers are skipped; with no qualifying outcome the last provider error
is surfaced when one occurred, and NotFound otherwise. -/
def specFirst (cfg : EnricherConfig) (outcomes : List (Except GoErr (Option TrackMetadata))) :
    Except GoErr TrackMetadata :=
  match outcomes.find? ( qualifies cfg) with
  | some (.ok (some r)) => .ok r
  | _ =>
    match lastErrOf outcomes with
    | some e => .error e
    | none => .error .notFound

/-! MusicBrainz adapter (pkg/enricher/musicbrainz).  The JSON structures
keep the fields the adapter reads; purely decorative JSON fields (status,
packaging, aliases, media, ...) are omitted, no claim observes them. -/

/-- Artist of pkg/enricher/musicbrainz/types.go (identifying fields). -/
structure Artist where
  id : String
  name : String
  sortName : String
  deriving DecidableEq, Repr

/-- ArtistCredit of pkg/enricher/musicbrainz/types.go. -/
structure ArtistCredit where
  name : String
  joinphrase : String
  artist : Artist
  deriving DecidableEq, Repr

/-- Label of pkg/enricher/musicbrainz/types.go (identifying fields). -/
structure Label where
  id : String
  name : String
  deriving DecidableEq, Repr

/-- LabelInfo of pkg/enricher/musicbrainz/types.go. -/
structure LabelInfo where
  catalogNumber : String
  label : Label
  deriving DecidableEq, Repr

/-- Release of pkg/enricher/musicbrainz/types.go (the fields the adapter
reads: identifier, title, date and label info). -/
structure Release where
  id : String
  title : String
  date : String
  country : String
  labelInfo : List LabelInfo
  deriving DecidableEq, Repr

/-- Recording of pkg/enricher/musicbrainz/types.go (the fields the
adapter reads: identifier, title, length, relevance score and artist
credits). -/
structure Recording where
  id : String
  title : String
  length : Int
  score : Int
  artistCredit : List ArtistCredit
  deriving DecidableEq, Repr

/-- Model of strings.EqualFold restricted to simple per-character
lower-casing; the claims about the adapter are proved for an arbitrary
fold function, this concrete one only instantiates them. -/
def goEqualFold (s t : String) : Bool :=
  s.toList.map Char.toLower = t.toList.map Char.toLower

/-- Loop of findBestRecordingMatch: running best score (starting at 0)
and running best recording (starting at nil), updated on strict
improvement only.  The score of a candidate is its remote relevance score,
plus 10 on a fold-equal title, plus 10 when some credited artist is
fold-equal to the target (the Go loop breaks after the first such credit,
adding the bonus once). -/
def findBestRecordingLoop (fold : String → String → Bool) (targetArtist targetTitle : String) :
    List Recording → Int → Option Recording → Option Recording
  | [], _, best => best
  | r :: rest, bestScore, best =>
    let score := r.score
    let score := if fold r.title targetTitle then score + 10 else score
    let score :=
      if r.artistCredit.any (fun credit => fold credit.artist.name targetArtist) then score + 10
      else score
    if score > bestScore then findBestRecordingLoop fold targetArtist targetTitle rest score (some r)
    else findBestRecordingLoop fold targetArtist targetTitle rest bestScore best

/-- findBestRecordingMatch of the adapter, parameterized by the
case-folding equality (strings.EqualFold in the source). -/
def findBestRecordingMatch (fold : String → String → Bool) (recordings : List Recording)
    (targetArtist targetTitle : String) : Option Recording :=
  match recordings with
  | [] => none
  | _ => findBestRecordingLoop fold targetArtist targetTitle recordings 0 none

/-- Loop of findBestRelease: running best release and running earliest
non-empty date string, exactly as the Go for-loop (a dated release
replaces the best when its date is lexicographically strictly smaller
than the running earliest or no dated release was seen yet; a dateless
release is kept only when no release at all was kept before). -/
def findBestReleaseLoop : List Release → Option Release → String → Option Release
  | [], best, _ => best
  | r :: rest, best, earliest =>
    if r.date ≠ "" then
      if earliest = "" ∨ r.date < earliest then findBestReleaseLoop rest (some r) r.date
      else findBestReleaseLoop rest best earliest
    else
      match best with
      | none => findBestReleaseLoop rest (some r) earliest
      | some b => findBestReleaseLoop rest (some b) earliest

/-- findBestRelease of the adapter: the first release when not preferring
originals, otherwise the scan for the earliest-dated release with the
ultimate fallback to the first release. -/
def findBestRelease (releases : List Release) (preferOriginal : Bool) : Option Release :=
  match releases with
  | [] => none
  | r0 :: _ =>
    if !preferOriginal then some r0
    else
      match findBestReleaseLoop releases none "" with
      | some best => some best
      | none => some r0

/-- Model of strconv.Atoi: an optional sign followed by at least one
decimal digit; anything else is a parse error (overflow is ignored, the
adapter only parses four-character year prefixes). -/
def digitsValLoop : List Char → Nat → Option Nat
  | [], acc => some acc
  | c :: rest, acc =>
    if c.isDigit then digitsValLoop rest (acc * 10 + (c.toNat - 48)) else none

/-- Value of a non-empty all-digit character list. -/
def digitsVal : List Char → Option Nat
  | [] => none
  | l => digitsValLoop l 0

/-- strconv.Atoi on a string. -/
def goAtoi (s : String) : Option Int :=
  match s.toList with
  | '+' :: rest => ( digitsVal rest).map (fun n => (n : Int))
  | '-' :: rest => ( digitsVal rest).map (fun n => -(n : Int))
  | l => ( digitsVal l).map (fun n => (n : Int))

/-- convertToTrackMetadata of the adapter: maps the winning recording and
release into TrackMetadata and scores it with CalculateConfidence; the
fold parameter stands for strings.EqualFold.  The Extra entries the Go
code stores are outside the embedded TrackMetadata. -/
def convertToTrackMetadata (fold : String → String → Bool) (recording : Recording)
    (release : Release) (originalArtist originalTitle : String) : TrackMetadata :=
  let year : Int :=
    if release.date ≠ "" ∧ release.date.length ≥ 4 then
      match goAtoi (release.date.take 4) with
      | some y => y
      | none => 0
    else 0
  let label :=
    match release.labelInfo with
    | li :: _ => li.label.name
    | [] => ""
  let catalog :=
    match release.labelInfo with
    | li :: _ => if li.catalogNumber ≠ "" then li.catalogNumber else ""
    | [] => ""
  let exactTitleMatch := fold recording.title originalTitle
  let exactArtistMatch :=
    recording.artistCredit.any (fun credit => fold credit.artist.name originalArtist)
  let metadata : TrackMetadata :=
    { artist := originalArtist
      title := originalTitle
      album := release.title
      label := label
      releaseDate := release.date
      genre := ""
      catalogNumber := catalog
      year := year
      providerID := recording.id
      providerName := "MusicBrainz"
      confidence := 0 }
  { metadata with confidence := CalculateConfidence metadata (exactArtistMatch && exactTitleMatch) }

/-- Rate-limit interval of the adapter (time.Second) in nanoseconds. -/
def rateLimitNs : Nat := 1000000000

/-- waitForRateLimit of the adapter.  elapsedNs is time.Since(lastRequest)
in nanoseconds; ctxDone says whether the context is done — already
canceled, or becoming canceled or expired before a pending timer would
fire — and with which error.  The update of m.lastRequest is a timing
side effect no claim observes. -/
def waitForRateLimit (elapsedNs : Nat) (ctxDone : Option GoErr) : Option GoErr :=
  if elapsedNs < rateLimitNs then
    match ctxDone with
    | some e => some e
    | none => none
  else none

/-- Outcome of reading and JSON-decoding a response body. -/
inductive BodyOutcome (α : Type) where
  | readErr (e : GoErr)
  | parseErr (e : GoErr)
  | ok (value : α)
  deriving DecidableEq, Repr

/-- Outcome of one outbound HTTP call: the client.Do error (a canceled
context surfaces here while a call is in flight), or a response with a
status code and a body outcome. -/
inductive HTTPResult (α : Type) where
  | doErr (e : GoErr)
  | resp (statusCode : Nat) (body : BodyOutcome α)
  deriving DecidableEq, Repr

/-- Shared error handling of searchRecordings and getRecordingReleases
around one HTTP call, written once: both Go functions repeat this block
verbatim (client.Do error wrapped as "http request failed", non-200
status as an apiStatus error, read and decode failures wrapped). -/
def httpJSON {α : Type} : HTTPResult α → Except GoErr α
  | .doErr e => .error (.wrapped "http request failed" e)
  | .resp statusCode body =>
    if statusCode ≠ 200 then .error (.apiStatus statusCode)
    else
      match body with
      | .readErr e => .error (.wrapped "failed to read response body" e)
      | .parseErr e => .error (.wrapped "failed to parse JSON response" e)
      | .ok value => .ok value

/-- searchRecordings of the adapter, over the oracle describing its HTTP
call; the query construction is a pure formatting step no claim observes. -/
def searchRecordings (callResult : HTTPResult (List Recording)) : Except GoErr (List Recording) :=
  httpJSON callResult

/-- getRecordingReleases of the adapter: a second rate-limit wait (whose
error is returned undecorated), then the detail HTTP call. -/
def getRecordingReleases (elapsedNs : Nat) (ctxDone : Option GoErr)
    (callResult : HTTPResult (List Release)) : Except GoErr (List Release) :=
  match waitForRateLimit elapsedNs ctxDone with
  | some e => .error e
  | none => httpJSON callResult

/-- Environment of one LookupWithHints call: the elapsed time and context
status at each of the two rate-limit waits, and the outcome of each of
the two outbound HTTP calls. -/
structure MBWorld where
  elapsed1 : Nat
  ctx1 : Option GoErr
  searchCall : HTTPResult (List Recording)
  elapsed2 : Nat
  ctx2 : Option GoErr
  detailCall : HTTPResult (List Release)
  deriving DecidableEq, Repr

/-- LookupWithHints of the adapter: first rate-limit wait, recording
search (its error wrapped as "musicbrainz recording search failed"),
best-recording selection, release lookup (its error wrapped as
"musicbrainz release lookup failed"), best-release selection, and the
conversion into TrackMetadata. -/
def LookupWithHints (fold : String → String → Bool) (w : MBWorld) (req : SearchRequest) :
    Except GoErr TrackMetadata :=
  match waitForRateLimit w.elapsed1 w.ctx1 with
  | some e => .error e
  | none =>
    match searchRecordings w.searchCall with
    | .error e => .error (.wrapped "musicbrainz recording search failed" e)
    | .ok recordings =>
      if recordings.length = 0 then .error .notFound
      else
        match findBestRecordingMatch fold recordings req.artist req.title with
        | none => .error .notFound
        | some bestRecording =>
          match getRecordingReleases w.elapsed2 w.ctx2 w.detailCall with
          | .error e => .error (.wrapped "musicbrainz release lookup failed" e)
          | .ok releases =>
            match findBestRelease releases req.preferOriginalRelease with
            | none => .error .notFound
            | some bestRelease =>
              .ok (convertToTrackMetadata fold bestRecording bestRelease req.artist req.title)

/-- Spec-side adjusted score of a candidate recording: the remote
relevance score, plus 10 on a case-insensitive title match, plus 10 when
some credited artist matches the requested artist case-insensitively. -/
def adjScore (fold : String → String → Bool) (targetArtist targetTitle : String)
    (r : Recording) : Int :=
  r.score + (if fold r.title targetTitle then 10 else 0) +
    (if r.artistCredit.any (fun credit => fold credit.artist.name targetArtist) then 10 else 0)

/-- Spec-side maximum adjusted score of a candidate list. -/
def adjMax (fold : String → String → Bool) (targetArtist targetTitle : String) :
    List Recording → Option Int
  | [] => none
  | r :: rest =>
    match adjMax fold targetArtist targetTitle rest with
    | none => some ( adjScore fold targetArtist targetTitle r)
    | some m => some (max ( adjScore fold targetArtist targetTitle r) m)

/-- Spec description of the candidate selection: the first-seen candidate
attaining the maximum adjusted score, provided that maximum is strictly
positive; otherwise no candidate. -/
def specBestRecording (fold : String → String → Bool) (recordings : List Recording)
    (targetArtist targetTitle : String) : Option Recording :=
  match adjMax fold targetArtist targetTitle recordings with
  | none => none
  | some m =>
    if 0 < m then recordings.find? (fun r => adjScore fold targetArtist targetTitle r = m)
    else none

/-- Spec-side earliest-dated release: the first release attaining the
lexicographically smallest non-empty date string, when a dated release
exists. -/
def minDated : List Release → Option Release
  | [] => none
  | r :: rest =>
    match minDated rest with
    | none => if r.date ≠ "" then some r else none
    | some m => if r.date ≠ "" ∧ r.date ≤ m.date then some r else some m

/-! Filename decomposition heuristics of cmd/batch.go.  Strings are
handled as character lists; Go regexp classes \d and [A-Z] are ASCII, \s
is the RE2 class [\t\n\f\r ], and unicode whitespace in TrimSpace and
Fields is modelled by the ASCII whitespace set (no claim involves
non-ASCII whitespace). -/

/-- RE2 whitespace class \s. -/
def isRegexSpace (c : Char) : Bool :=
  c = ' ' ∨ c = '\t' ∨ c = '\n' ∨ c = '\x0c' ∨ c = '\r'

/-- Whitespace recognized by strings.TrimSpace and strings.Fields,
restricted to ASCII. -/
def isGoSpace (c : Char) : Bool :=
  c = ' ' ∨ c = '\t' ∨ c = '\n' ∨ c = '\x0b' ∨ c = '\x0c' ∨ c = '\r'

/-- ASCII class [A-Z]. -/
def isUpperAZ (c : Char) : Bool :=
  'A' ≤ c ∧ c ≤ 'Z'

/-- Greedy one-or-more character-class match: consume at least one
character satisfying p, then every further one. -/
def dropWhile1 (p : Char → Bool) : List Char → Option (List Char)
  | [] => none
  | c :: rest => if p c then some (rest.dropWhile p) else none

/-- Remainder after the anchored pattern of cleanTrackPrefix number one,
a backslash-d run, an optional period, then mandatory whitespace (the
optional period cannot rescue a failed whitespace match: with or without
it the next character is not whitespace, so greedy matching is exact). -/
def matchPat1 (l : List Char) : Option (List Char) :=
  match dropWhile1 Char.isDigit l with
  | none => none
  | some l1 =>
    dropWhile1 isRegexSpace (if l1.head? = some '.' then l1.tail else l1)

/-- Remainder after pattern number two: a digit run, optional whitespace,
a hyphen, optional whitespace. -/
def matchPat2 (l : List Char) : Option (List Char) :=
  match dropWhile1 Char.isDigit l with
  | none => none
  | some l1 =>
    if (l1.dropWhile isRegexSpace).head? = some '-' then
      some ((l1.dropWhile isRegexSpace).tail.dropWhile isRegexSpace)
    else none

/-- Remainder after pattern number three: one uppercase letter, a digit
run, mandatory whitespace. -/
def matchPat3 : List Char → Option (List Char)
  | [] => none
  | c :: rest =>
    if isUpperAZ c then
      match dropWhile1 Char.isDigit rest with
      | none => none
      | some l1 => dropWhile1 isRegexSpace l1
    else none

/-- Remainder after pattern number four: one uppercase letter, a digit
run, optional whitespace, a hyphen, optional whitespace. -/
def matchPat4 : List Char → Option (List Char)
  | [] => none
  | c :: rest =>
    if isUpperAZ c then
      match dropWhile1 Char.isDigit rest with
      | none => none
      | some l1 =>
        if (l1.dropWhile isRegexSpace).head? = some '-' then
          some ((l1.dropWhile isRegexSpace).tail.dropWhile isRegexSpace)
        else none
    else none

/-- One ReplaceAllString step with an anchored pattern: the caret can
match only at the start of the text, so at most one occurrence is
replaced — the matched leading prefix is removed when the pattern
matches, otherwise the string is unchanged. -/
def applyPat (m : List Char → Option (List Char)) (l : List Char) : List Char :=
  (m l).getD l

/-- strings.TrimSpace on a character list (ASCII whitespace). -/
def trimGoList (l : List Char) : List Char :=
  ((l.dropWhile isGoSpace).reverse.dropWhile isGoSpace).reverse

/-- cleanTrackPrefix of cmd/batch.go: the four anchored patterns applied
in order, each to the result of the previous one, then TrimSpace. -/
def cleanTrackPrefix (name : String) : String :=
  ( trimGoList
    ( applyPat matchPat4
      ( applyPat matchPat3
        ( applyPat matchPat2
          ( applyPat matchPat1 name.toList))))).asString

/-- strings.SplitN with a single-character separator and n greater than
zero: at most n substrings, the last one the unsplit remainder. -/
def splitNChar (sep : Char) : Nat → List Char → List (List Char)
  | 0, _ => []
  | 1, l => [l]
  | n + 2, l =>
    let pre := l.takeWhile (fun c => c ≠ sep)
    match l.dropWhile (fun c => c ≠ sep) with
    | [] => [l]
    | _ :: tail => pre :: splitNChar sep (n + 1) tail

/-- strings.Split with a single-character separator: one part per
separator occurrence plus one. -/
def splitAllChar (sep : Char) (l : List Char) : List (List Char) :=
  l.foldr
    (fun c acc =>
      if c = sep then [] :: acc
      else
        match acc with
        | g :: gs => (c :: g) :: gs
        | [] => [[c]])
    [[]]

/-- strings.Fields on a character list (runs of whitespace separate the
words, leading and trailing whitespace ignored). -/
def fieldsGo (l : List Char) : List (List Char) :=
  (l.foldr
    (fun c acc =>
      if isGoSpace c then [] :: acc
      else
        match acc with
        | g :: gs => (c :: g) :: gs
        | [] => [[c]])
    [[]]).filter (fun g => g ≠ [])

/-- strings.Count of the single-character pattern "-". -/
def countHyphens (s : String) : Nat :=
  s.toList.countP (fun c => c = '-')

/-- parseOneHyphen of cmd/batch.go. -/
def parseOneHyphen (name : String) : String × String :=
  match splitNChar '-' 2 name.toList with
  | [p0, p1] => (( trimGoList p0).asString, ( trimGoList p1).asString)
  | _ => ("", "")

/-- parseTwoHyphens of cmd/batch.go: the middle part (the album) is
discarded. -/
def parseTwoHyphens (name : String) : String × String :=
  match splitNChar '-' 3 name.toList with
  | [p0, _, p2] => (( trimGoList p0).asString, ( trimGoList p2).asString)
  | _ => ("", "")

/-- parseFourHyphens of cmd/batch.go: the first two parts joined with a
slash form the artist, the last part is the title, the middle parts are
only logged. -/
def parseFourHyphens (name : String) : String × String :=
  match splitNChar '-' 5 name.toList with
  | [p0, p1, _, _, p4] =>
    (( trimGoList p0).asString ++ "/" ++ ( trimGoList p1).asString, ( trimGoList p4).asString)
  | _ => ("", "")

/-- trySpaceSeparated of cmd/batch.go: exactly two whitespace-separated
words give (artist, title), anything else gives empty fields. -/
def trySpaceSeparated (name : String) : String × String :=
  match fieldsGo name.toList with
  | [w0, w1] => (w0.asString, w1.asString)
  | _ => ("", "")

/-- tryThreeHyphenFallback of cmd/batch.go. -/
def tryThreeHyphenFallback (name : String) : String × String :=
  match splitNChar '-' 4 name.toList with
  | [p0, _, _, p3] => (( trimGoList p0).asString, ( trimGoList p3).asString)
  | _ => ("", "")

/-- tryManyHyphenFallback of cmd/batch.go. -/
def tryManyHyphenFallback (name : String) : String × String :=
  let parts := splitAllChar '-' name.toList
  if parts.length ≥ 3 then
    (( trimGoList (parts.headD [])).asString, ( trimGoList (parts.getLastD [])).asString)
  else ("", "")

/-- handleEdgeCase of cmd/batch.go. -/
def handleEdgeCase (name caseType : String) : String × String :=
  if caseType = "no_hyphens" then trySpaceSeparated name
  else if caseType = "three_hyphens" then tryThreeHyphenFallback name
  else if caseType = "many_hyphens" then tryManyHyphenFallback name
  else ("", "")

/-- parseFilenameWithEdgeCase of cmd/batch.go from the point where the
extension has already been removed (filepath.Base and the extension strip
are caller-side normalization; the spec contract of the decomposer starts
from an extensionless name): prefix cleanup, then dispatch on the hyphen
count. -/
def parseNameWithEdgeCase (name0 : String) : String × String × String :=
  let name := cleanTrackPrefix name0
  let hyphenCount := countHyphens name
  if hyphenCount = 0 then
    let p := handleEdgeCase name "no_hyphens"
    (p.1, p.2, "no_hyphens")
  else if hyphenCount = 1 then
    let p := parseOneHyphen name
    (p.1, p.2, "")
  else if hyphenCount = 2 then
    let p := parseTwoHyphens name
    (p.1, p.2, "")
  else if hyphenCount = 3 then
    let p := handleEdgeCase name "three_hyphens"
    (p.1, p.2, "three_hyphens")
  else if hyphenCount = 4 then
    let p := parseFourHyphens name
    (p.1, p.2, "")
  else
    let p := handleEdgeCase name "many_hyphens"
    (p.1, p.2, "many_hyphens")

/-- Claim-side reading of the preprocessing: try the four patterns in
order and strip only the first one that matches, so that at most one
prefix is removed overall, then TrimSpace. -/
def stripAtMostOne (l : List Char) : List Char :=
  match matchPat1 l with
  | some rest => rest
  | none =>
    match matchPat2 l with
    | some rest => rest
    | none =>
      match matchPat3 l with
      | some rest => rest
      | none =>
        match matchPat4 l with
        | some rest => rest
        | none => l

/-- cleanTrackPrefix as the claim describes it: at most one prefix
stripped, then TrimSpace. -/
def cleanAtMostOne (name : String) : String :=
  ( trimGoList ( stripAtMostOne name.toList)).asString

/-- A single anchored ReplaceAllString step relates its input and output:
either the pattern did not match and the string is unchanged, or it
matched and exactly one non-empty prefix was removed. -/
def IsStripOf (m : List Char → Option (List Char)) (l r : List Char) : Prop :=
  (m l = none ∧ r = l) ∨ (m l = some r ∧ ∃ pre, pre ≠ [] ∧ l = pre ++ r)

/-! Theorems settling the claims. -/

/-- Closed form of CalculateConfidence as the clamped sum of the base
score and the four bonuses. -/
lemma calculateConfidence_eq (md : TrackMetadata) (exactMatch : Bool) :
    CalculateConfidence md exactMatch =
      min 1 (2/10 + (if exactMatch then (4 : ℚ)/10 else 2/10)
        + (if md.label ≠ "" then (2 : ℚ)/10 else 0)
        + (if md.releaseDate ≠ "" ∨ md.year > 0 then (1 : ℚ)/10 else 0)
        + (if md.catalogNumber ≠ "" then (1 : ℚ)/10 else 0)) := by
  simp only [CalculateConfidence, min_def]
  split_ifs <;> try rfl
  all_goals try norm_num
  all_goals linarith

/-- C3: CalculateConfidence returns min(1, 0.2 + (0.4 on an exact match,
else 0.2) + 0.2 for a non-empty label + 0.1 for a non-empty release date
or positive year + 0.1 for a non-empty catalog number); an exact match
with label, date and catalog number present yields exactly 1, a fuzzy
match with none of them yields exactly 0.4, and the output always lies in
[0, 1]. -/
theorem C3_confidence_spec (md : TrackMetadata) (exactMatch : Bool) :
    CalculateConfidence md exactMatch =
      min 1 (2/10 + (if exactMatch then (4 : ℚ)/10 else 2/10)
        + (if md.label ≠ "" then (2 : ℚ)/10 else 0)
        + (if md.releaseDate ≠ "" ∨ md.year > 0 then (1 : ℚ)/10 else 0)
        + (if md.catalogNumber ≠ "" then (1 : ℚ)/10 else 0)) ∧
    (exactMatch = true → md.label ≠ "" → (md.releaseDate ≠ "" ∨ md.year > 0) →
      md.catalogNumber ≠ "" → CalculateConfidence md exactMatch = 1) ∧
    (exactMatch = false → md.label = "" → md.releaseDate = "" → md.year ≤ 0 →
      md.catalogNumber = "" → CalculateConfidence md exactMatch = 4/10) ∧
    0 ≤ CalculateConfidence md exactMatch ∧ CalculateConfidence md exactMatch ≤ 1 := by
  refine ⟨ calculateConfidence_eq md exactMatch, ?_, ?_, ?_, ?_⟩
  · intro h1 h2 h3 h4
    rw [ calculateConfidence_eq]
    simp [h1, h2, h3, h4]
    norm_num
  · intro h1 h2 h3 h4 h5
    rw [ calculateConfidence_eq]
    simp [h1, h2, h3, h5, not_lt.mpr h4, min_def]
    norm_num
  · rw [ calculateConfidence_eq, min_def]
    split_ifs <;> norm_num
  · rw [ calculateConfidence_eq]
    exact min_le_left _ _

/-- Witness for C3 at a fully populated exact match and at an empty fuzzy
match. -/
theorem C3_confidence_spec_witness :
    CalculateConfidence
      { artist := "A", title := "T", album := "", label := "L", releaseDate := "1993-04-01",
        genre := "", catalogNumber := "C1", year := 1993, providerID := "", providerName := "MB",
        confidence := 0 } true = 1 ∧
    CalculateConfidence
      { artist := "A", title := "T", album := "", label := "", releaseDate := "",
        genre := "", catalogNumber := "", year := 0, providerID := "", providerName := "MB",
        confidence := 0 } false = 4/10 :=
  ⟨(C3_confidence_spec _ true).2.1 rfl (by decide) (Or.inl (by decide)) (by decide),
   (C3_confidence_spec _ false).2.2.1 rfl rfl rfl (by decide) rfl⟩

/-- Default configuration values of NewEnricher, used as a concrete
fixture. -/
def cfgFirstDefault : EnricherConfig :=
  { strategy := "first", minConfidence := 7/10, requireLabel := false,
    requestTimeout := 30000000000, cacheEnabled := true, cacheTTL := 86400000000000 }

/-- C2 fails on the code: with an empty registry, LookupWithRequest does
not return NoProvider — it performs no registry check and falls through
to the strategy scan, which reports NotFound. -/
theorem C2_counterexample :
    Enricher.LookupWithRequest ⟨[], cfgFirstDefault⟩
      { artist := "a", title := "t", album := "", genre := "", year := "",
        duration := 0, preferOriginalRelease := true, maxResults := 5 } =
      .error .notFound ∧
    (Except.error GoErr.notFound : Except GoErr TrackMetadata) ≠ .error .noProvider := by
  exact ⟨rfl, by simp⟩

/-- C2 amended: with an empty registry, Lookup returns NoProvider, but
LookupWithRequest returns NotFound (for every configuration and request:
each strategy branch scans zero providers and no error is recorded). -/
theorem C2_lookup_empty_registry (cfg : EnricherConfig) (artist title : String)
    (req : SearchRequest) :
    Enricher.Lookup ⟨[], cfg⟩ artist title = .error .noProvider ∧
    Enricher.LookupWithRequest ⟨[], cfg⟩ req = .error .notFound := by
  constructor
  · simp [Enricher.Lookup]
  · simp only [Enricher.LookupWithRequest]
    split_ifs <;> rfl

/-- C7: whenever the full-hint First pass fails, lookupFallback performs a
second First pass on the simplified request, which keeps artist, title,
preferOriginalRelease and maxResults and clears album, genre, year and
duration to zero values. -/
theorem C7_fallback_second_pass (e : Enricher) (req : SearchRequest)
    (h : ∃ err, e.lookupFirst req = Except.error err) :
    e.lookupFallback req = e.lookupFirst ( simplifiedRequest req) ∧
    ( simplifiedRequest req).artist = req.artist ∧
    ( simplifiedRequest req).title = req.title ∧
    ( simplifiedRequest req).preferOriginalRelease = req.preferOriginalRelease ∧
    ( simplifiedRequest req).maxResults = req.maxResults ∧
    ( simplifiedRequest req).album = "" ∧
    ( simplifiedRequest req).genre = "" ∧
    ( simplifiedRequest req).year = "" ∧
    ( simplifiedRequest req).duration = 0 := by
  obtain ⟨err, herr⟩ := h
  refine ⟨?_, rfl, rfl, rfl, rfl, rfl, rfl, rfl, rfl⟩
  simp [Enricher.lookupFallback, herr]

/-- Witness for C7 on the empty registry, whose First pass fails with
NotFound. -/
theorem C7_fallback_second_pass_witness :
    (∃ err, Enricher.lookupFirst ⟨[], cfgFirstDefault⟩
      { artist := "a", title := "t", album := "Al", genre := "dnb", year := "1999",
        duration := 7, preferOriginalRelease := true, maxResults := 5 } = Except.error err) ∧
    (Enricher.lookupFallback ⟨[], cfgFirstDefault⟩
      { artist := "a", title := "t", album := "Al", genre := "dnb", year := "1999",
        duration := 7, preferOriginalRelease := true, maxResults := 5 } =
      Enricher.lookupFirst ⟨[], cfgFirstDefault⟩
        ( simplifiedRequest
          { artist := "a", title := "t", album := "Al", genre := "dnb", year := "1999",
            duration := 7, preferOriginalRelease := true, maxResults := 5 }) ∧
      ( simplifiedRequest
        { artist := "a", title := "t", album := "Al", genre := "dnb", year := "1999",
          duration := 7, preferOriginalRelease := true, maxResults := 5 }).artist = "a" ∧
      ( simplifiedRequest
        { artist := "a", title := "t", album := "Al", genre := "dnb", year := "1999",
          duration := 7, preferOriginalRelease := true, maxResults := 5 }).title = "t" ∧
      ( simplifiedRequest
        { artist := "a", title := "t", album := "Al", genre := "dnb", year := "1999",
          duration := 7, preferOriginalRelease := true, maxResults := 5 }).preferOriginalRelease
        = true ∧
      ( simplifiedRequest
        { artist := "a", title := "t", album := "Al", genre := "dnb", year := "1999",
          duration := 7, preferOriginalRelease := true, maxResults := 5 }).maxResults = 5 ∧
      ( simplifiedRequest
        { artist := "a", title := "t", album := "Al", genre := "dnb", year := "1999",
          duration := 7, preferOriginalRelease := true, maxResults := 5 }).album = "" ∧
      ( simplifiedRequest
        { artist := "a", title := "t", album := "Al", genre := "dnb", year := "1999",
          duration := 7, preferOriginalRelease := true, maxResults := 5 }).genre = "" ∧
      ( simplifiedRequest
        { artist := "a", title := "t", album := "Al", genre := "dnb", year := "1999",
          duration := 7, preferOriginalRelease := true, maxResults := 5 }).year = "" ∧
      ( simplifiedRequest
        { artist := "a", title := "t", album := "Al", genre := "dnb", year := "1999",
          duration := 7, preferOriginalRelease := true, maxResults := 5 }).duration = 0) :=
  ⟨⟨.notFound, rfl⟩, C7_fallback_second_pass _ _ ⟨.notFound, rfl⟩⟩

/-- C10: when at least the full one-second interval has elapsed since the
last request, waitForRateLimit succeeds without consulting the context
(the result is nil whatever the context status, canceled included); a
cancellation error is returned only when a wait is actually pending. -/
theorem C10_rateLimit_skips_context (elapsedNs : Nat) (ctxDone ctxDone2 : Option GoErr) :
    (rateLimitNs ≤ elapsedNs →
      waitForRateLimit elapsedNs ctxDone = none ∧
      waitForRateLimit elapsedNs ctxDone = waitForRateLimit elapsedNs ctxDone2) ∧
    (∀ e, waitForRateLimit elapsedNs ctxDone = some e →
      elapsedNs < rateLimitNs ∧ ctxDone = some e) := by
  unfold waitForRateLimit
  constructor
  · intro h
    rw [if_neg (by omega), if_neg (by omega)]
    exact ⟨rfl, rfl⟩
  · intro e he
    by_cases hlt : elapsedNs < rateLimitNs
    · rw [if_pos hlt] at he
      cases hc : ctxDone with
      | none => rw [hc] at he; cases he
      | some x =>
        rw [hc] at he
        simp only [Option.some.injEq] at he
        exact ⟨hlt, by rw [he]⟩
    · rw [if_neg hlt] at he
      cases he

/-- Witness for C10: an already-canceled context passes the gate when the
interval has fully elapsed. -/
theorem C10_rateLimit_skips_context_witness :
    rateLimitNs ≤ rateLimitNs ∧ waitForRateLimit rateLimitNs (some GoErr.ctxCanceled) = none :=
  ⟨le_refl _,
   ((C10_rateLimit_skips_context rateLimitNs (some GoErr.ctxCanceled) none).1 (le_refl _)).1⟩

/-- errors.Is finds the target when it equals the error itself. -/
lemma errorsIs_self (e : GoErr) : errorsIs e e = true := by
  unfold errorsIs
  simp

/-- errors.Is looks through one wrapping layer. -/
lemma errorsIs_wrapped (msg : String) (c e : GoErr) (h : errorsIs c e = true) :
    errorsIs (.wrapped msg c) e = true := by
  unfold errorsIs
  split_ifs with hEq
  · rfl
  · exact h

/-- C6 fails on the code: when the context is canceled while the search
HTTP call is in flight, LookupWithHints returns the cancellation error
wrapped twice (fmt.Errorf with a %w verb in searchRecordings and again in
LookupWithHints), not the context error unchanged. -/
theorem C6_counterexample :
    LookupWithHints goEqualFold
      { elapsed1 := rateLimitNs, ctx1 := none, searchCall := .doErr .ctxCanceled,
        elapsed2 := 0, ctx2 := none, detailCall := .resp 200 (.ok []) }
      { artist := "a", title := "t", album := "", genre := "", year := "",
        duration := 0, preferOriginalRelease := true, maxResults := 5 } =
      .error (.wrapped "musicbrainz recording search failed"
        (.wrapped "http request failed" .ctxCanceled)) ∧
    GoErr.wrapped "musicbrainz recording search failed"
      (.wrapped "http request failed" .ctxCanceled) ≠ .ctxCanceled := by
  exact ⟨rfl, by decide⟩

/-- C6 amended: cancellation during the first rate-limit wait propagates
verbatim; cancellation during the outbound search call is returned
wrapped as "musicbrainz recording search failed: http request failed:
..." with the context error still reachable through the unwrap chain. -/
theorem C6_cancellation_propagation (fold : String → String → Bool) (w : MBWorld)
    (req : SearchRequest) (e : GoErr) :
    (w.elapsed1 < rateLimitNs → w.ctx1 = some e → LookupWithHints fold w req = .error e) ∧
    (waitForRateLimit w.elapsed1 w.ctx1 = none → w.searchCall = .doErr e →
      LookupWithHints fold w req =
        .error (.wrapped "musicbrainz recording search failed"
          (.wrapped "http request failed" e)) ∧
      errorsIs (.wrapped "musicbrainz recording search failed"
        (.wrapped "http request failed" e)) e = true) := by
  constructor
  · intro h1 h2
    have hw : waitForRateLimit w.elapsed1 w.ctx1 = some e := by
      unfold waitForRateLimit
      rw [if_pos h1, h2]
    unfold LookupWithHints
    rw [hw]
  · intro h1 h2
    refine ⟨?_, errorsIs_wrapped _ _ _ ( errorsIs_wrapped _ _ _ ( errorsIs_self e))⟩
    unfold LookupWithHints
    rw [h1, h2]
    rfl

/-- Witness for C6 amended: an immediately canceled context during a
pending wait surfaces verbatim, and a cancellation inside the search call
surfaces wrapped. -/
theorem C6_cancellation_propagation_witness :
    LookupWithHints goEqualFold
      { elapsed1 := 0, ctx1 := some .ctxCanceled, searchCall := .resp 200 (.ok []),
        elapsed2 := 0, ctx2 := none, detailCall := .resp 200 (.ok []) }
      { artist := "a", title := "t", album := "", genre := "", year := "",
        duration := 0, preferOriginalRelease := true, maxResults := 5 } =
      .error .ctxCanceled ∧
    LookupWithHints goEqualFold
      { elapsed1 := rateLimitNs, ctx1 := none, searchCall := .doErr .ctxCanceled,
        elapsed2 := 0, ctx2 := none, detailCall := .resp 200 (.ok []) }
      { artist := "a", title := "t", album := "", genre := "", year := "",
        duration := 0, preferOriginalRelease := true, maxResults := 5 } =
      .error (.wrapped "musicbrainz recording search failed"
        (.wrapped "http request failed" .ctxCanceled)) :=
  ⟨(C6_cancellation_propagation goEqualFold
      { elapsed1 := 0, ctx1 := some .ctxCanceled, searchCall := .resp 200 (.ok []),
        elapsed2 := 0, ctx2 := none, detailCall := .resp 200 (.ok []) }
      { artist := "a", title := "t", album := "", genre := "", year := "",
        duration := 0, preferOriginalRelease := true, maxResults := 5 }
      GoErr.ctxCanceled).1 (by decide) rfl,
   ((C6_cancellation_propagation goEqualFold
      { elapsed1 := rateLimitNs, ctx1 := none, searchCall := .doErr .ctxCanceled,
        elapsed2 := 0, ctx2 := none, detailCall := .resp 200 (.ok []) }
      { artist := "a", title := "t", album := "", genre := "", year := "",
        duration := 0, preferOriginalRelease := true, maxResults := 5 }
      GoErr.ctxCanceled).2 (by decide) rfl).1⟩

/-- The candidate loop step: the inline score computation equals the
spec-side adjusted score. -/
lemma findBestRecordingLoop_cons (fold : String → String → Bool) (a t : String)
    (r : Recording) (rest : List Recording) (b : Int) (cur : Option Recording) :
    findBestRecordingLoop fold a t (r :: rest) b cur =
      if adjScore fold a t r > b then
        findBestRecordingLoop fold a t rest ( adjScore fold a t r) (some r)
      else findBestRecordingLoop fold a t rest b cur := by
  simp only [findBestRecordingLoop, adjScore]
  by_cases h1 : fold r.title t <;>
    by_cases h2 : r.artistCredit.any (fun credit => fold credit.artist.name a) <;>
    simp [h1, h2]

/-- Closed form of the candidate loop: starting from a running best score
b and candidate cur, the loop returns the first candidate attaining the
maximum adjusted score when that maximum exceeds b, and cur otherwise. -/
lemma findBestRecordingLoop_eq (fold : String → String → Bool) (a t : String) :
    ∀ (rs : List Recording) (b : Int) (cur : Option Recording),
      findBestRecordingLoop fold a t rs b cur =
        match adjMax fold a t rs with
        | none => cur
        | some m =>
          if b < m then rs.find? (fun r => adjScore fold a t r = m) else cur := by
  intro rs
  induction rs with
  | nil => intro b cur; rfl
  | cons r rest ih =>
    intro b cur
    rw [ findBestRecordingLoop_cons]
    by_cases hgt : adjScore fold a t r > b
    · rw [if_pos hgt, ih]
      cases hmax : adjMax fold a t rest with
      | none =>
        simp only [adjMax, hmax]
        rw [if_pos (by omega : b < adjScore fold a t r)]
        rw [List.find?_cons_of_pos _ (by simp)]
      | some m =>
        simp only [adjMax, hmax]
        rcases le_or_lt m ( adjScore fold a t r) with hle | hlt
        · rw [max_eq_left hle]
          rw [if_neg (by omega : ¬ adjScore fold a t r < m)]
          rw [if_pos (by omega : b < adjScore fold a t r)]
          rw [List.find?_cons_of_pos _ (by simp)]
        · rw [max_eq_right (le_of_lt hlt)]
          rw [if_pos hlt, if_pos (by omega : b < m)]
          rw [List.find?_cons_of_neg _ (by simp; omega)]
    · rw [if_neg hgt, ih]
      cases hmax : adjMax fold a t rest with
      | none =>
        simp only [adjMax, hmax]
        rw [if_neg (by omega : ¬ b < adjScore fold a t r)]
      | some m =>
        simp only [adjMax, hmax]
        by_cases hbm : b < m
        · rw [if_pos hbm]
          rw [max_eq_right (by omega : adjScore fold a t r ≤ m)]
          rw [if_pos hbm]
          rw [List.find?_cons_of_neg _ (by simp; omega)]
        · rw [if_neg hbm]
          rcases le_total ( adjScore fold a t r) m with hle | hle
          · rw [max_eq_right hle, if_neg hbm]
          · rw [max_eq_left hle, if_neg (by omega : ¬ b < adjScore fold a t r)]

/-- C4 fails on the code at the zero-score corner: the running best score
starts at 0 with a strict comparison, so a non-empty candidate list whose
only adjusted score is 0 yields no selected candidate at all, not a
maximum-score candidate. -/
theorem C4_counterexample :
    ([({ id := "r1", title := "x", length := 0, score := 0, artistCredit := [] } : Recording)]
      ≠ []) ∧
    findBestRecordingMatch goEqualFold
      [{ id := "r1", title := "x", length := 0, score := 0, artistCredit := [] }] "b" "y" =
      none := by
  exact ⟨by decide, by decide⟩

/-- C4 amended: the selection assigns each candidate its adjusted score
(remote score, +10 on a case-insensitive title match, +10 when some
credited artist matches case-insensitively) and returns the first-seen
candidate attaining the maximum adjusted score provided that maximum is
strictly positive; when every adjusted score is at most zero, no
candidate is returned.  Stated for an arbitrary case-folding equality,
hence in particular for strings.EqualFold. -/
theorem C4_best_recording_spec (fold : String → String → Bool) (recordings : List Recording)
    (targetArtist targetTitle : String) :
    findBestRecordingMatch fold recordings targetArtist targetTitle =
      specBestRecording fold recordings targetArtist targetTitle := by
  cases recordings with
  | nil => rfl
  | cons r rest =>
    show findBestRecordingLoop fold targetArtist targetTitle (r :: rest) 0 none = _
    rw [ findBestRecordingLoop_eq]
    unfold specBestRecording
    cases hmax : adjMax fold targetArtist targetTitle (r :: rest) with
    | none => rfl
    | some m => rfl

/-- The Boolean qualification test agrees with the condition the Go loop
checks. -/
lemma qualifies_ok_some (cfg : EnricherConfig) (r : TrackMetadata) :
    qualifies cfg (.ok (some r)) = true ↔
      (r.confidence ≥ cfg.minConfidence ∧ (cfg.requireLabel = false ∨ r.label ≠ "")) := by
  simp [qualifies]

/-- Closed form of the First-strategy loop: the earliest qualifying
outcome wins; otherwise the last error of the scanned outcomes, then the
accumulator, then NotFound. -/
lemma lookupFirstLoop_eq (cfg : EnricherConfig) :
    ∀ (outs : List (Except GoErr (Option TrackMetadata))) (acc : Option GoErr),
      lookupFirstLoop cfg outs acc =
        match outs.find? ( qualifies cfg) with
        | some (.ok (some r)) => .ok r
        | _ =>
          match lastErrOf outs with
          | some e => .error e
          | none => match acc with | some e => .error e | none => .error .notFound := by
  intro outs
  induction outs with
  | nil => intro acc; cases acc <;> rfl
  | cons o rest ih =>
    intro acc
    match o with
    | .error e =>
      show lookupFirstLoop cfg rest (some e) = _
      rw [ih, List.find?_cons_of_neg _ (by simp [qualifies])]
      cases hf : List.find? ( qualifies cfg) rest with
      | some x =>
        have hx := List.find?_some hf
        match x with
        | .error e2 => simp [qualifies] at hx
        | .ok none => simp [qualifies] at hx
        | .ok (some r) => rfl
      | none =>
        simp only [lastErrOf]
        cases hl : lastErrOf rest <;> rfl
    | .ok none =>
      show lookupFirstLoop cfg rest acc = _
      rw [ih, List.find?_cons_of_neg _ (by simp [qualifies])]
      cases hf : List.find? ( qualifies cfg) rest with
      | some x =>
        have hx := List.find?_some hf
        match x with
        | .error e2 => simp [qualifies] at hx
        | .ok none => simp [qualifies] at hx
        | .ok (some r) => rfl
      | none =>
        simp only [lastErrOf]
        cases hl : lastErrOf rest <;> rfl
    | .ok (some r) =>
      by_cases hq : r.confidence ≥ cfg.minConfidence ∧ (cfg.requireLabel = false ∨ r.label ≠ "")
      · show (if r.confidence ≥ cfg.minConfidence ∧ (cfg.requireLabel = false ∨ r.label ≠ "")
            then Except.ok r else lookupFirstLoop cfg rest acc) = _
        rw [if_pos hq, List.find?_cons_of_pos _ (( qualifies_ok_some cfg r).mpr hq)]
      · show (if r.confidence ≥ cfg.minConfidence ∧ (cfg.requireLabel = false ∨ r.label ≠ "")
            then Except.ok r else lookupFirstLoop cfg rest acc) = _
        rw [if_neg hq, ih,
          List.find?_cons_of_neg _ (fun h => hq (( qualifies_ok_some cfg r).mp h))]
        cases hf : List.find? ( qualifies cfg) rest with
        | some x =>
          have hx := List.find?_some hf
          match x with
          | .error e2 => simp [qualifies] at hx
          | .ok none => simp [qualifies] at hx
          | .ok (some r2) => rfl
        | none =>
          simp only [lastErrOf]
          cases hl : lastErrOf rest <;> rfl

/-- C1: under the First strategy, a non-empty registry yields the result
of the earliest provider whose call qualifies (non-nil result, confidence
at least minConfidence, and a non-empty label when requireLabel is set);
erroring providers are skipped with the error remembered; with no
qualifying provider, the last provider error is surfaced when one
occurred, and NotFound otherwise — exactly the spec description
specFirst. -/
theorem C1_first_strategy (e : Enricher) (req : SearchRequest) (h : e.providers ≠ []) :
    e.lookupFirst req = specFirst e.config (e.providers.map (fun p => p req)) := by
  unfold Enricher.lookupFirst specFirst
  rw [ lookupFirstLoop_eq]

/-- Witness for C1 on a one-provider registry whose provider errors. -/
theorem C1_first_strategy_witness :
    (([fun _ => Except.error GoErr.apiErr] : List MetadataProvider) ≠ []) ∧
    Enricher.lookupFirst ⟨[fun _ => .error .apiErr], cfgFirstDefault⟩
      { artist := "a", title := "t", album := "", genre := "", year := "",
        duration := 0, preferOriginalRelease := true, maxResults := 5 } =
      specFirst cfgFirstDefault
        (([fun _ => Except.error GoErr.apiErr] : List MetadataProvider).map
          (fun p =>
            p { artist := "a", title := "t", album := "", genre := "", year := "",
                duration := 0, preferOriginalRelease := true, maxResults := 5 })) :=
  ⟨List.cons_ne_nil _ _,
   C1_first_strategy ⟨[fun _ => .error .apiErr], cfgFirstDefault⟩
     { artist := "a", title := "t", album := "", genre := "", year := "",
       duration := 0, preferOriginalRelease := true, maxResults := 5 }
     (List.cons_ne_nil _ _)⟩

/-- Invariant of the release loop while it holds a dated best: the kept
release is replaced exactly by the first-seen release attaining the
minimum non-empty date, when that minimum is strictly earlier than the
current one. -/
lemma findBestReleaseLoop_keep (rs : List Release) :
    ∀ (b : Release) (d : String), d ≠ "" →
      findBestReleaseLoop rs (some b) d =
        match minDated rs with
        | none => some b
        | some m => if m.date < d then some m else some b := by
  induction rs with
  | nil => intro b d hd; rfl
  | cons r rest ih =>
    intro b d hd
    by_cases hr : r.date = ""
    · rw [show findBestReleaseLoop (r :: rest) (some b) d
          = findBestReleaseLoop rest (some b) d from by
        simp [findBestReleaseLoop, hr]]
      rw [ih b d hd]
      have hmd : minDated (r :: rest) = minDated rest := by
        simp only [minDated]
        cases hm : minDated rest with
        | none => simp [hr]
        | some m => simp [hr]
      rw [hmd]
    · by_cases hlt : r.date < d
      · rw [show findBestReleaseLoop (r :: rest) (some b) d
            = findBestReleaseLoop rest (some r) r.date from by
          simp [findBestReleaseLoop, hr, hlt]]
        rw [ih r r.date hr]
        cases hm : minDated rest with
        | none =>
          have hcons : minDated (r :: rest) = some r := by simp [minDated, hm, hr]
          simp [hcons, hlt]
        | some m =>
          rcases le_or_lt r.date m.date with hle | hgt
          · have hcons : minDated (r :: rest) = some r := by simp [minDated, hm, hr, hle]
            simp [hcons, hlt, not_lt.mpr hle]
          · have hcons : minDated (r :: rest) = some m := by
              simp [minDated, hm, hr, not_le.mpr hgt]
            simp [hcons, hgt, lt_trans hgt hlt]
      · rw [show findBestReleaseLoop (r :: rest) (some b) d
            = findBestReleaseLoop rest (some b) d from by
          simp [findBestReleaseLoop, hr, hlt, hd]]
        rw [ih b d hd]
        cases hm : minDated rest with
        | none =>
          have hcons : minDated (r :: rest) = some r := by simp [minDated, hm, hr]
          simp [hcons, hlt]
        | some m =>
          rcases le_or_lt r.date m.date with hle | hgt
          · have hcons : minDated (r :: rest) = some r := by simp [minDated, hm, hr, hle]
            have hnm : ¬ m.date < d :=
              not_lt.mpr (le_trans (le_trans (not_lt.mp hlt) hle) (le_refl _))
            simp [hcons, hlt, hnm]
          · have hcons : minDated (r :: rest) = some m := by
              simp [minDated, hm, hr, not_le.mpr hgt]
            simp [hcons]
/-- Invariant of the release loop while it holds a dateless fallback:
any dated release in the remainder wins. -/
lemma findBestReleaseLoop_fresh (rs : List Release) :
    ∀ (b : Release), findBestReleaseLoop rs (some b) "" =
      match minDated rs with
      | none => some b
      | some m => some m := by
  induction rs with
  | nil => intro b; rfl
  | cons r rest ih =>
    intro b
    by_cases hr : r.date = ""
    · rw [show findBestReleaseLoop (r :: rest) (some b) ""
          = findBestReleaseLoop rest (some b) "" from by
        simp [findBestReleaseLoop, hr]]
      rw [ih b]
      have hmd : minDated (r :: rest) = minDated rest := by
        simp only [minDated]
        cases hm : minDated rest with
        | none => simp [hr]
        | some m => simp [hr]
      rw [hmd]
    · rw [show findBestReleaseLoop (r :: rest) (some b) ""
          = findBestReleaseLoop rest (some r) r.date from by
        simp [findBestReleaseLoop, hr]]
      rw [ findBestReleaseLoop_keep rest r r.date hr]
      cases hm : minDated rest with
      | none =>
        have hcons : minDated (r :: rest) = some r := by simp [minDated, hm, hr]
        simp [hcons]
      | some m =>
        rcases le_or_lt r.date m.date with hle | hgt
        · have hcons : minDated (r :: rest) = some r := by simp [minDated, hm, hr, hle]
          simp [hcons, not_lt.mpr hle]
        · have hcons : minDated (r :: rest) = some m := by
            simp [minDated, hm, hr, not_le.mpr hgt]
          simp [hcons, hgt]

/-- Closed form of the full release scan: the earliest-dated release
when one exists, the first release otherwise. -/
lemma findBestReleaseLoop_start (rs : List Release) :
    findBestReleaseLoop rs none "" =
      match minDated rs with
      | none => rs.head?
      | some m => some m := by
  cases rs with
  | nil => rfl
  | cons r rest =>
    by_cases hr : r.date = ""
    · rw [show findBestReleaseLoop (r :: rest) none ""
          = findBestReleaseLoop rest (some r) "" from by
        simp [findBestReleaseLoop, hr]]
      rw [ findBestReleaseLoop_fresh rest r]
      have hmd : minDated (r :: rest) = minDated rest := by
        simp only [minDated]
        cases hm : minDated rest with
        | none => simp [hr]
        | some m => simp [hr]
      rw [hmd]
      cases hm : minDated rest with
      | none => rfl
      | some m => rfl
    · rw [show findBestReleaseLoop (r :: rest) none ""
          = findBestReleaseLoop rest (some r) r.date from by
        simp [findBestReleaseLoop, hr]]
      rw [ findBestReleaseLoop_keep rest r r.date hr]
      cases hm : minDated rest with
      | none =>
        have hcons : minDated (r :: rest) = some r := by simp [minDated, hm, hr]
        simp [hcons]
      | some m =>
        rcases le_or_lt r.date m.date with hle | hgt
        · have hcons : minDated (r :: rest) = some r := by simp [minDated, hm, hr, hle]
          simp [hcons, not_lt.mpr hle]
        · have hcons : minDated (r :: rest) = some m := by
            simp [minDated, hm, hr, not_le.mpr hgt]
          simp [hcons, hgt]

/-- A list with no dated release has no earliest-dated release. -/
lemma minDated_all_dateless (rs : List Release) (h : ∀ r ∈ rs, r.date = "") :
    minDated rs = none := by
  induction rs with
  | nil => rfl
  | cons r rest ih =>
    have hrest : minDated rest = none := ih (fun q hq => h q (List.mem_cons_of_mem r hq))
    simp [minDated, hrest, h r (List.mem_cons_self r rest)]

/-- A list containing a dated release has an earliest-dated release. -/
lemma minDated_ne_none (rs : List Release) (r : Release) (hmem : r ∈ rs) (hd : r.date ≠ "") :
    minDated rs ≠ none := by
  induction rs with
  | nil => cases hmem
  | cons x rest ih =>
    rcases List.mem_cons.mp hmem with rfl | hmem2
    · cases hm : minDated rest with
      | none => simp [minDated, hm, hd]
      | some m => simp only [minDated, hm]; split <;> simp
    · cases hm : minDated rest with
      | none => exact absurd hm (ih hmem2)
      | some m => simp only [minDated, hm]; split <;> simp

/-- The earliest-dated release is in the list, carries a non-empty date,
and its date is lexicographically minimal among the dated releases. -/
lemma minDated_spec (rs : List Release) :
    ∀ m, minDated rs = some m →
      m ∈ rs ∧ m.date ≠ "" ∧ ∀ q ∈ rs, q.date ≠ "" → m.date ≤ q.date := by
  induction rs with
  | nil => intro m hm; cases hm
  | cons r rest ih =>
    intro m hm
    cases hrest : minDated rest with
    | none =>
      rw [show minDated (r :: rest) = if r.date ≠ "" then some r else none from by
        simp [minDated, hrest]] at hm
      split_ifs at hm with hr
      · cases hm
        refine ⟨List.mem_cons_self _ _, hr, ?_⟩
        intro q hq hqd
        rcases List.mem_cons.mp hq with rfl | hq2
        · exact le_refl _
        · exact absurd hrest ( minDated_ne_none rest q hq2 hqd)
    | some m2 =>
      obtain ⟨hmem2, hd2, hmin2⟩ := ih m2 hrest
      rw [show minDated (r :: rest)
          = if r.date ≠ "" ∧ r.date ≤ m2.date then some r else some m2 from by
        simp [minDated, hrest]] at hm
      split_ifs at hm with hcond
      · cases hm
        refine ⟨List.mem_cons_self _ _, hcond.1, ?_⟩
        intro q hq hqd
        rcases List.mem_cons.mp hq with rfl | hq2
        · exact le_refl _
        · exact le_trans hcond.2 (hmin2 q hq2 hqd)
      · cases hm
        refine ⟨List.mem_cons_of_mem r hmem2, hd2, ?_⟩
        intro q hq hqd
        rcases List.mem_cons.mp hq with rfl | hq2
        · rcases not_and_or.mp hcond with hc | hc
          · exact absurd hqd (by simpa using hc)
          · exact le_of_lt (not_le.mp hc)
        · exact hmin2 q hq2 hqd
/-- C5: for a non-empty release list, with preferOriginalRelease false
the first release is selected regardless of dates; with it true, when no
release carries a date the first release is selected, and when some
release does, the selected release is a member carrying the
lexicographically smallest non-empty date string. -/
theorem C5_best_release (rels : List Release) (prefer : Bool) (h : rels ≠ []) :
    (prefer = false → findBestRelease rels prefer = rels.head?) ∧
    (prefer = true → (∀ r ∈ rels, r.date = "") → findBestRelease rels prefer = rels.head?) ∧
    (prefer = true → ∀ r0 ∈ rels, r0.date ≠ "" →
      ∃ r ∈ rels, findBestRelease rels prefer = some r ∧ r.date ≠ "" ∧
        ∀ q ∈ rels, q.date ≠ "" → r.date ≤ q.date) := by
  match rels with
  | [] => exact absurd rfl h
  | r0 :: rest =>
    refine ⟨?_, ?_, ?_⟩
    · intro hp; subst hp; rfl
    · intro hp hall; subst hp
      have hm := minDated_all_dateless (r0 :: rest) hall
      rw [show findBestRelease (r0 :: rest) true
          = (match findBestReleaseLoop (r0 :: rest) none "" with
             | some best => some best
             | none => some r0) from rfl]
      rw [ findBestReleaseLoop_start, hm]
      rfl
    · intro hp rd hrdmem hrdd; subst hp
      cases hm : minDated (r0 :: rest) with
      | none => exact absurd hm ( minDated_ne_none _ rd hrdmem hrdd)
      | some m =>
        obtain ⟨hmem, hd, hmin⟩ := minDated_spec _ m hm
        refine ⟨m, hmem, ?_, hd, hmin⟩
        rw [show findBestRelease (r0 :: rest) true
            = (match findBestReleaseLoop (r0 :: rest) none "" with
               | some best => some best
               | none => some r0) from rfl]
        rw [ findBestReleaseLoop_start, hm]

/-- Concrete release fixture for the C5 witness. -/
def relFixture : Release :=
  { id := "i", title := "t", date := "2020", country := "", labelInfo := [] }

/-- Witness for C5 on a one-release list with preferOriginalRelease
false. -/
theorem C5_best_release_witness :
    (([ relFixture] : List Release) ≠ []) ∧
    ((false = false → findBestRelease [ relFixture] false = ([ relFixture] : List Release).head?) ∧
     (false = true → (∀ r ∈ ([ relFixture] : List Release), r.date = "") →
       findBestRelease [ relFixture] false = ([ relFixture] : List Release).head?) ∧
     (false = true → ∀ r0 ∈ ([ relFixture] : List Release), r0.date ≠ "" →
       ∃ r ∈ ([ relFixture] : List Release), findBestRelease [ relFixture] false = some r ∧
         r.date ≠ "" ∧ ∀ q ∈ ([ relFixture] : List Release), q.date ≠ "" → r.date ≤ q.date)) :=
  ⟨List.cons_ne_nil _ _, C5_best_release [ relFixture] false (List.cons_ne_nil _ _)⟩

/-- C8 fails on the code: a two-word no-hyphen name returns a non-empty
artist and title together with the non-empty tag "no_hyphens". -/
theorem C8_counterexample :
    parseNameWithEdgeCase "Hello World" = ("Hello", "World", "no_hyphens") ∧
    ("Hello" : String) ≠ "" ∧ ("World" : String) ≠ "" ∧ ("no_hyphens" : String) ≠ "" := by
  exact ⟨by decide, by decide, by decide, by decide⟩

/-- C8 amended: the edge-case tag is non-empty exactly when the hyphen
count of the preprocessed name is 0, 3, or at least 5; a non-empty tag
can accompany non-empty artist and title fields. -/
theorem C8_edge_tag_iff_hyphens (name : String) :
    ( parseNameWithEdgeCase name).2.2 ≠ "" ↔
      ( countHyphens ( cleanTrackPrefix name) = 0 ∨
        countHyphens ( cleanTrackPrefix name) = 3 ∨
        5 ≤ countHyphens ( cleanTrackPrefix name)) := by
  simp only [parseNameWithEdgeCase]
  split_ifs with h0 h1 h2 h3 h4 <;> simp_all <;> omega

/-- A successful one-or-more class match removes a non-empty prefix. -/
lemma dropWhile1_strip (p : Char → Bool) (l r : List Char) (h : dropWhile1 p l = some r) :
    ∃ pre, pre ≠ [] ∧ l = pre ++ r := by
  cases l with
  | nil => cases h
  | cons c rest =>
    simp only [dropWhile1] at h
    split_ifs at h with hp
    injection h with h
    subst h
    exact ⟨c :: rest.takeWhile p, by simp, by simp [List.takeWhile_append_dropWhile]⟩

/-- A zero-or-more class match removes a (possibly empty) prefix. -/
lemma dropWhile_strip (p : Char → Bool) (l : List Char) :
    ∃ pre, l = pre ++ l.dropWhile p :=
  ⟨l.takeWhile p, (List.takeWhile_append_dropWhile p l).symm⟩

/-- A list whose head is a known character starts with it. -/
lemma head_strip (c : Char) (l : List Char) (h : l.head? = some c) : l = c :: l.tail := by
  cases l with
  | nil => cases h
  | cons x t =>
    simp only [List.head?] at h
    injection h with h
    rw [h]
    rfl

/-- Pattern one, when it matches, removes a non-empty leading prefix. -/
lemma matchPat1_strip (l r : List Char) (h : matchPat1 l = some r) :
    ∃ pre, pre ≠ [] ∧ l = pre ++ r := by
  unfold matchPat1 at h
  cases h1 : dropWhile1 Char.isDigit l with
  | none => rw [h1] at h; cases h
  | some l1 =>
    rw [h1] at h
    replace h : dropWhile1 isRegexSpace (if l1.head? = some '.' then l1.tail else l1)
        = some r := h
    obtain ⟨pre1, hpre1, hl⟩ := dropWhile1_strip _ _ _ h1
    by_cases hdot : l1.head? = some '.'
    · rw [if_pos hdot] at h
      obtain ⟨pre3, hpre3, hl2⟩ := dropWhile1_strip _ _ _ h
      refine ⟨pre1 ++ ('.' :: pre3), by simp [hpre1], ?_⟩
      rw [hl, head_strip '.' l1 hdot, hl2]
      simp
    · rw [if_neg hdot] at h
      obtain ⟨pre3, hpre3, hl2⟩ := dropWhile1_strip _ _ _ h
      refine ⟨pre1 ++ pre3, by simp [hpre1], ?_⟩
      rw [hl, hl2]
      simp

/-- Pattern two, when it matches, removes a non-empty leading prefix. -/
lemma matchPat2_strip (l r : List Char) (h : matchPat2 l = some r) :
    ∃ pre, pre ≠ [] ∧ l = pre ++ r := by
  unfold matchPat2 at h
  cases h1 : dropWhile1 Char.isDigit l with
  | none => rw [h1] at h; cases h
  | some l1 =>
    rw [h1] at h
    replace h : (if (l1.dropWhile isRegexSpace).head? = some '-' then
        some ((l1.dropWhile isRegexSpace).tail.dropWhile isRegexSpace) else none) = some r := h
    obtain ⟨pre1, hpre1, hl⟩ := dropWhile1_strip _ _ _ h1
    by_cases hdash : (l1.dropWhile isRegexSpace).head? = some '-'
    · rw [if_pos hdash] at h
      injection h with h
      obtain ⟨tw, htw⟩ := dropWhile_strip isRegexSpace l1
      obtain ⟨tw2, htw2⟩ := dropWhile_strip isRegexSpace (l1.dropWhile isRegexSpace).tail
      refine ⟨pre1 ++ (tw ++ ('-' :: tw2)), by simp [hpre1], ?_⟩
      rw [hl, htw, head_strip '-' _ hdash, htw2, h]
      simp
    · rw [if_neg hdash] at h
      cases h

/-- Pattern three, when it matches, removes a non-empty leading prefix. -/
lemma matchPat3_strip (l r : List Char) (h : matchPat3 l = some r) :
    ∃ pre, pre ≠ [] ∧ l = pre ++ r := by
  cases l with
  | nil => cases h
  | cons c rest =>
    unfold matchPat3 at h
    replace h : (if isUpperAZ c = true then
        (match dropWhile1 Char.isDigit rest with
          | none => none
          | some l1 => dropWhile1 isRegexSpace l1)
      else none) = some r := h
    split_ifs at h with hup
    cases h1 : dropWhile1 Char.isDigit rest with
    | none => rw [h1] at h; cases h
    | some l1 =>
      rw [h1] at h
      replace h : dropWhile1 isRegexSpace l1 = some r := h
      obtain ⟨pre1, hpre1, hl⟩ := dropWhile1_strip _ _ _ h1
      obtain ⟨pre3, hpre3, hl2⟩ := dropWhile1_strip _ _ _ h
      refine ⟨c :: (pre1 ++ pre3), by simp, ?_⟩
      rw [hl, hl2]
      simp

/-- Pattern four, when it matches, removes a non-empty leading prefix. -/
lemma matchPat4_strip (l r : List Char) (h : matchPat4 l = some r) :
    ∃ pre, pre ≠ [] ∧ l = pre ++ r := by
  cases l with
  | nil => cases h
  | cons c rest =>
    unfold matchPat4 at h
    replace h : (if isUpperAZ c = true then
        (match dropWhile1 Char.isDigit rest with
          | none => none
          | some l1 =>
            if (l1.dropWhile isRegexSpace).head? = some '-' then
              some ((l1.dropWhile isRegexSpace).tail.dropWhile isRegexSpace)
            else none)
      else none) = some r := h
    split_ifs at h with hup
    cases h1 : dropWhile1 Char.isDigit rest with
    | none => rw [h1] at h; cases h
    | some l1 =>
      rw [h1] at h
      replace h : (if (l1.dropWhile isRegexSpace).head? = some '-' then
          some ((l1.dropWhile isRegexSpace).tail.dropWhile isRegexSpace) else none) = some r := h
      obtain ⟨pre1, hpre1, hl⟩ := dropWhile1_strip _ _ _ h1
      by_cases hdash : (l1.dropWhile isRegexSpace).head? = some '-'
      · rw [if_pos hdash] at h
        injection h with h
        obtain ⟨tw, htw⟩ := dropWhile_strip isRegexSpace l1
        obtain ⟨tw2, htw2⟩ := dropWhile_strip isRegexSpace (l1.dropWhile isRegexSpace).tail
        refine ⟨c :: (pre1 ++ (tw ++ ('-' :: tw2))), by simp, ?_⟩
        rw [hl, htw, head_strip '-' _ hdash, htw2, h]
        simp
      · rw [if_neg hdash] at h
        cases h

/-- An anchored ReplaceAllString step with a prefix-removing matcher
either skips or strips exactly one non-empty leading match. -/
lemma applyPat_isStrip (m : List Char → Option (List Char))
    (hm : ∀ l r, m l = some r → ∃ pre, pre ≠ [] ∧ l = pre ++ r) (l : List Char) :
    IsStripOf m l ( applyPat m l) := by
  cases hml : m l with
  | none => exact Or.inl ⟨hml, by simp [applyPat, hml]⟩
  | some r => exact Or.inr ⟨by simp [applyPat, hml], by
      have := hm l r hml
      simpa [applyPat, hml] using this⟩
/-- C9 fails on the code: the four patterns are applied sequentially to
the running string, so a later pattern can strip a second prefix exposed
by an earlier one — "1. A1 Foo - Bar" loses both "1. " and "A1 ", while
the at-most-one-prefix reading would keep "A1 Foo - Bar". -/
theorem C9_counterexample :
    cleanTrackPrefix "1. A1 Foo - Bar" = "Foo - Bar" ∧
    cleanAtMostOne "1. A1 Foo - Bar" = "A1 Foo - Bar" ∧
    cleanTrackPrefix "1. A1 Foo - Bar" ≠ cleanAtMostOne "1. A1 Foo - Bar" := by
  exact ⟨by decide, by decide, by decide⟩

/-- C9 amended: cleanTrackPrefix tries the four prefix patterns in the
stated order, each applied to the result of the previous one and each
either skipped or stripping exactly one non-empty leading match — so up
to one prefix per pattern (not one overall) can be removed — and the
result is the TrimSpace of the four-fold stripped string. -/
theorem C9_sequential_strip (name : String) :
    IsStripOf matchPat1 name.toList ( applyPat matchPat1 name.toList) ∧
    IsStripOf matchPat2 ( applyPat matchPat1 name.toList)
      ( applyPat matchPat2 ( applyPat matchPat1 name.toList)) ∧
    IsStripOf matchPat3 ( applyPat matchPat2 ( applyPat matchPat1 name.toList))
      ( applyPat matchPat3 ( applyPat matchPat2 ( applyPat matchPat1 name.toList))) ∧
    IsStripOf matchPat4
      ( applyPat matchPat3 ( applyPat matchPat2 ( applyPat matchPat1 name.toList)))
      ( applyPat matchPat4
        ( applyPat matchPat3 ( applyPat matchPat2 ( applyPat matchPat1 name.toList)))) ∧
    cleanTrackPrefix name =
      ( trimGoList
        ( applyPat matchPat4
          ( applyPat matchPat3
            ( applyPat matchPat2
              ( applyPat matchPat1 name.toList))))).asString :=
  ⟨ applyPat_isStrip _ matchPat1_strip _,
    applyPat_isStrip _ matchPat2_strip _,
    applyPat_isStrip _ matchPat3_strip _,
    applyPat_isStrip _ matchPat4_strip _,
    rfl⟩

end Tagger
